import Mathlib

/-!
# Verification of the ipverify service core

A shallow embedding of the `gdotgordon/ipverify` service: the SQLite-backed
event store (`store.go`, the version whose `GetPriorNext` takes the event
UUID and which provides `Clear`), the haversine distance / speed calculator
and the verification pipeline (`service.go`), and the constants of
`types/types.go`.

Modelling conventions:
* The SQLite table `items (Uuid TEXT PRIMARY KEY, Username TEXT, Ipaddr TEXT,
  Unix INT)` is modelled as a `List VerifyRequest` in insertion (rowid)
  order.  The `PRIMARY KEY` constraint created by `createTable` makes an
  insert with an existing `Uuid` fail; `addRecord` models that check.
* A SQL query `... ORDER BY Unix DESC LIMIT 1` returns some row of maximal
  `Unix` among the rows matching the `WHERE` clause; which row it returns
  when several share the maximal `Unix` is not specified by the SQL.  The
  embedding picks the first such row in insertion order (`maxByUnix`
  below, and dually `minByUnix` for `ORDER BY Unix ASC LIMIT 1`).
* `float64` arithmetic is idealised over `ℝ`; `math.Round` (round half away
  from zero) is `mathRound` below.
* The MaxMind geolocation lookup is an external collaborator; it is
  modelled as an arbitrary function `String → Option Location` (`none`
  standing for a parse failure or a lookup miss).
-/

namespace IPVerify

/-- `types.VerifyRequest` from `types/types.go`: one login event. -/
structure VerifyRequest where
  Username : String
  UnixTimestamp : Int
  EventUUID : String
  IPAddress : String
  deriving DecidableEq, Repr

/-- `types.MaxSpeed` from `types/types.go`: any speed greater than this
triggers a suspicious alert. -/
def MaxSpeed : Int := 500

/-- `service.Location`, the result of a MaxMind lookup (`service.go`); the
unused `MetroCode`/`TimeZone` fields are omitted. -/
structure Location where
  AccuracyRadius : Nat
  Latitude : ℝ
  Longitude : ℝ

/-- `types.GeoEvent`: the preceding or subsequent part of a response. -/
structure GeoEvent where
  IP : String
  Speed : Int
  SuspiciousTravel : Bool
  Lat : ℝ
  Lon : ℝ
  Radius : Nat
  Timestamp : Int

/-- `types.CurrentGeoStat`: response data for the incoming request. -/
structure CurrentGeoStat where
  Lat : ℝ
  Lon : ℝ
  Radius : Nat

/-- `types.VerifyResponse`: the full verification response. -/
structure VerifyResponse where
  CurrentGeo : CurrentGeoStat
  PrecedingIPAccess : Option GeoEvent
  SubsequentIPAccess : Option GeoEvent

/-- The rows of the `items` table, in insertion (rowid) order. -/
abbrev Store := List VerifyRequest

/-- The store-level error: the `PRIMARY KEY` violation reported by the
sqlite3 driver when `AddRecord` inserts an already-present `Uuid`. -/
inductive StoreError where
  | duplicateEvent
  deriving DecidableEq, Repr

/-- `SQLiteStore.AddRecord` (`store.go`): executes
`INSERT INTO items(Uuid, Username, Ipaddr, Unix) values(?, ?, ?, ?)`.
The `Uuid TEXT NOT NULL PRIMARY KEY` column declared by `createTable` makes
the insert fail, changing nothing, when the `Uuid` is already present;
otherwise the row is appended. -/
def addRecord (s : Store) (item : VerifyRequest) : Except StoreError Store :=
  if s.any (fun e => e.EventUUID == item.EventUUID) then
    .error .duplicateEvent
  else
    .ok (s ++ [item])

/-- First row (in insertion order) of maximal `Unix`: the row returned by
`ORDER BY Unix DESC LIMIT 1` (the choice among equal `Unix` values is a
modelling decision, see the header). -/
def maxByUnix : List VerifyRequest → Option VerifyRequest
  | [] => none
  | e :: rest =>
    match maxByUnix rest with
    | none => some e
    | some m => if e.UnixTimestamp < m.UnixTimestamp then some m else some e

/-- First row (in insertion order) of minimal `Unix`: the row returned by
`ORDER BY Unix ASC LIMIT 1`. -/
def minByUnix : List VerifyRequest → Option VerifyRequest
  | [] => none
  | e :: rest =>
    match minByUnix rest with
    | none => some e
    | some m => if m.UnixTimestamp < e.UnixTimestamp then some m else some e

/-- `WHERE Username = ? AND Uuid != ? AND Unix <= ?` of the first
`GetPriorNext` query. -/
def priorMatch (username uuid : String) (timestamp : Int)
    (e : VerifyRequest) : Bool :=
  e.Username == username && e.EventUUID != uuid &&
    decide (e.UnixTimestamp ≤ timestamp)

/-- `WHERE Username = ? AND Uuid != ? AND Unix > ?` of the second
`GetPriorNext` query. -/
def nextMatch (username uuid : String) (timestamp : Int)
    (e : VerifyRequest) : Bool :=
  e.Username == username && e.EventUUID != uuid &&
    decide (timestamp < e.UnixTimestamp)

/-- `SQLiteStore.GetPriorNext` (`store.go`): runs the two `LIMIT 1`
queries (latest row with `Unix <= ?`, then earliest row with `Unix > ?`,
both excluding `Uuid = ?`) and classifies each returned row by the loop
test `item.UnixTimestamp <= timestamp` into `prev` or `next`. -/
def getPriorNext (s : Store) (username uuid : String) (timestamp : Int) :
    Option VerifyRequest × Option VerifyRequest :=
  let priorRow := maxByUnix (s.filter (priorMatch username uuid timestamp))
  let nextRow := minByUnix (s.filter (nextMatch username uuid timestamp))
  let st1 : Option VerifyRequest × Option VerifyRequest :=
    match priorRow with
    | none => (none, none)
    | some item =>
      if item.UnixTimestamp ≤ timestamp then (some item, none)
      else (none, some item)
  match nextRow with
  | none => st1
  | some item =>
    if item.UnixTimestamp ≤ timestamp then (some item, st1.2)
    else (st1.1, some item)

/-- `SQLiteStore.Clear` (`store.go`): `DELETE FROM items;`. -/
def clear (_ : Store) : Store := []

/-! ## The distance / speed calculator (`service.go`) -/

/-- `kmtomiles` from `service.go`. -/
noncomputable def kmtomiles : ℝ := 0.621371192

/-- `earthRadius` from `service.go`. -/
noncomputable def earthRadius : ℝ := 6371

/-- Go's `math.Atan2 y x` on real (non-NaN, finite) arguments. -/
noncomputable def atan2 (y x : ℝ) : ℝ :=
  if 0 < x then Real.arctan (y / x)
  else if x < 0 ∧ 0 ≤ y then Real.arctan (y / x) + Real.pi
  else if x < 0 ∧ y < 0 then Real.arctan (y / x) - Real.pi
  else if x = 0 ∧ 0 < y then Real.pi / 2
  else if x = 0 ∧ y < 0 then -(Real.pi / 2)
  else 0

/-- `haversine` from `service.go`, `float64` arithmetic idealised over `ℝ`. -/
noncomputable def haversine (latFrom lonFrom latTo lonTo : ℝ) : ℝ :=
  let deltaLat := (latTo - latFrom) * (Real.pi / 180)
  let deltaLon := (lonTo - lonFrom) * (Real.pi / 180)
  let a := Real.sin (deltaLat / 2) * Real.sin (deltaLat / 2) +
    Real.cos (latFrom * (Real.pi / 180)) * Real.cos (latTo * (Real.pi / 180)) *
      Real.sin (deltaLon / 2) * Real.sin (deltaLon / 2)
  let c := 2 * atan2 (Real.sqrt a) (Real.sqrt (1 - a))
  kmtomiles * (earthRadius * c)

/-- Go's `math.Round`: round half away from zero, as an integer (the
surrounding `int64(...)` conversion in `calculateSpeed` is exact because
`math.Round` yields an integral value). -/
noncomputable def mathRound (x : ℝ) : Int :=
  if x < 0 then -⌊-x + 1 / 2⌋ else ⌊x + 1 / 2⌋

/-- `calculateSpeed` from `service.go`: the implied travel rate, `-1` when
the two timestamps coincide. -/
noncomputable def calculateSpeed (lat1 lon1 : ℝ) (time1 : Int)
    (lat2 lon2 : ℝ) (time2 : Int) : Int :=
  let dist := haversine lat1 lon1 lat2 lon2
  if time1 = time2 then -1
  else mathRound (dist * 3600 / |((time2 - time1 : Int) : ℝ)|)

/-! ## The verification pipeline (`service.go`) -/

/-- The request-terminal errors of `VerifyService.VerifyIP` (§7 taxonomy):
a duplicate `event_uuid` rejected by the store, or a failed geolocation
lookup. -/
inductive VerifyError where
  | duplicateEvent
  | locationLookup
  deriving DecidableEq, Repr

/-- The external MaxMind lookup (`lookupIP` in `service.go`): `none` when
the IP does not parse or has no entry. -/
def GeoLookup := String → Option Location

/-- `VerifyService.geoEventFromRequest` (`service.go`): looks up the other
event's location, computes the speed against the current event and labels
it suspicious when the speed is `-1` or exceeds `types.MaxSpeed`. -/
noncomputable def geoEventFromRequest (geo : GeoLookup) (curLoc : Location)
    (curEvent otherEvent : VerifyRequest) : Option GeoEvent :=
  match geo otherEvent.IPAddress with
  | none => none
  | some otherLoc =>
    let speed := calculateSpeed otherLoc.Latitude otherLoc.Longitude
      otherEvent.UnixTimestamp curLoc.Latitude curLoc.Longitude
      curEvent.UnixTimestamp
    let suspicious : Bool := decide (speed = -1 ∨ speed > MaxSpeed)
    some { IP := otherEvent.IPAddress, Speed := speed,
           SuspiciousTravel := suspicious, Lat := otherLoc.Latitude,
           Lon := otherLoc.Longitude, Radius := otherLoc.AccuracyRadius,
           Timestamp := otherEvent.UnixTimestamp }

/-- The `if prev != nil { pge, err = vs.geoEventFromRequest(...) ... }`
steps of `VerifyIP`: an absent neighbor contributes nothing, a failed
lookup for a present neighbor aborts the request. -/
noncomputable def neighborGeoEvent (geo : GeoLookup) (curLoc : Location)
    (curEvent : VerifyRequest) :
    Option VerifyRequest → Except VerifyError (Option GeoEvent)
  | none => .ok none
  | some other =>
    match geoEventFromRequest geo curLoc curEvent other with
    | none => .error .locationLookup
    | some ge => .ok (some ge)

/-- `VerifyService.VerifyIP` (`service.go`): insert the event first, then
query the prior/next neighbors, then resolve the current location, then
build the response parts for each present neighbor.  The returned store is
the store state after the call (unchanged on a duplicate insert; the new
row is kept even when a later lookup step fails the request). -/
noncomputable def verifyIP (geo : GeoLookup) (s : Store)
    (req : VerifyRequest) : Store × Except VerifyError VerifyResponse :=
  match addRecord s req with
  | .error _ => (s, .error .duplicateEvent)
  | .ok s2 =>
    let pn := getPriorNext s2 req.Username req.EventUUID req.UnixTimestamp
    match geo req.IPAddress with
    | none => (s2, .error .locationLookup)
    | some curLoc =>
      match neighborGeoEvent geo curLoc req pn.1 with
      | .error e => (s2, .error e)
      | .ok pge =>
        match neighborGeoEvent geo curLoc req pn.2 with
        | .error e => (s2, .error e)
        | .ok nge =>
          (s2, .ok { CurrentGeo := { Lat := curLoc.Latitude,
                                     Lon := curLoc.Longitude,
                                     Radius := curLoc.AccuracyRadius },
                     PrecedingIPAccess := pge,
                     SubsequentIPAccess := nge })

/-- `VerifyService.ResetStore` (`service.go`): clears the store. -/
def resetStore (s : Store) : Store := clear s

/-! ## Spec-side calculator (§4.2), for the refinement claim

These two definitions follow the wording of spec §4.2, to be compared with
`haversine` / `calculateSpeed` above: inputs in degrees converted to
radians, `a = sin²(Δlat/2) + cos(lat1)·cos(lat2)·sin²(Δlon/2)`,
`c = 2·atan2(√a, √(1−a))`, `distance = R·c` on `R = 6371` km converted to
miles by `0.621371192`; speed is `round(distance·3600 / |t2 − t1|)` with
round half away from zero, and `-1` when `t1 == t2`. -/

/-- Round half away from zero, as the spec words it: `⌊|x| + 1/2⌋` carrying
the sign of `x`. -/
noncomputable def specRound (x : ℝ) : Int :=
  if x < 0 then -⌊|x| + 1 / 2⌋ else ⌊|x| + 1 / 2⌋

/-- `Distance` as worded in spec §4.2. -/
noncomputable def specDistance (lat1 lon1 lat2 lon2 : ℝ) : ℝ :=
  let rlat1 := lat1 * (Real.pi / 180)
  let rlat2 := lat2 * (Real.pi / 180)
  let rlon1 := lon1 * (Real.pi / 180)
  let rlon2 := lon2 * (Real.pi / 180)
  let a := Real.sin ((rlat2 - rlat1) / 2) ^ 2 +
    Real.cos rlat1 * Real.cos rlat2 * Real.sin ((rlon2 - rlon1) / 2) ^ 2
  let c := 2 * atan2 (Real.sqrt a) (Real.sqrt (1 - a))
  6371 * c * 0.621371192

/-- `Speed` as worded in spec §4.2. -/
noncomputable def specSpeed (lat1 lon1 : ℝ) (t1 : Int)
    (lat2 lon2 : ℝ) (t2 : Int) : Int :=
  if t1 = t2 then -1
  else specRound (specDistance lat1 lon1 lat2 lon2 * 3600 / |(t2 : ℝ) - (t1 : ℝ)|)

/-! ## Lemmas about the row-selection helpers -/

theorem maxByUnix_eq_none {l : List VerifyRequest} :
    maxByUnix l = none ↔ l = [] := by
  cases l with
  | nil => simp [maxByUnix]
  | cons e rest =>
    simp only [maxByUnix]
    cases h : maxByUnix rest with
    | none => simp
    | some m =>
      by_cases hc : e.UnixTimestamp < m.UnixTimestamp <;> simp [hc]

theorem maxByUnix_mem : ∀ {l : List VerifyRequest} {m : VerifyRequest},
    maxByUnix l = some m → m ∈ l := by
  intro l
  induction l with
  | nil => intro m h; simp [maxByUnix] at h
  | cons e rest ih =>
    intro m h
    unfold maxByUnix at h
    cases hr : maxByUnix rest with
    | none =>
      rw [hr] at h
      simp only [] at h
      simp only [Option.some.injEq] at h
      simp [h]
    | some m' =>
      rw [hr] at h
      simp only [] at h
      by_cases hc : e.UnixTimestamp < m'.UnixTimestamp
      · rw [if_pos hc] at h
        simp only [Option.some.injEq] at h
        exact List.mem_cons_of_mem e (h ▸ ih hr)
      · rw [if_neg hc] at h
        simp only [Option.some.injEq] at h
        simp [h]

theorem maxByUnix_le : ∀ {l : List VerifyRequest} {m : VerifyRequest},
    maxByUnix l = some m →
    ∀ e ∈ l, e.UnixTimestamp ≤ m.UnixTimestamp := by
  intro l
  induction l with
  | nil => intro m h; simp [maxByUnix] at h
  | cons e rest ih =>
    intro m h x hx
    unfold maxByUnix at h
    cases hr : maxByUnix rest with
    | none =>
      rw [hr] at h
      simp only [] at h
      simp only [Option.some.injEq] at h
      have : rest = [] := maxByUnix_eq_none.mp hr
      subst this
      rcases List.mem_singleton.mp hx with rfl
      exact h ▸ le_refl _
    | some m' =>
      rw [hr] at h
      simp only [] at h
      rcases List.mem_cons.mp hx with rfl | hxr
      · by_cases hc : x.UnixTimestamp < m'.UnixTimestamp
        · rw [if_pos hc] at h
          simp only [Option.some.injEq] at h
          exact h ▸ le_of_lt hc
        · rw [if_neg hc] at h
          simp only [Option.some.injEq] at h
          exact h ▸ le_refl _
      · by_cases hc : e.UnixTimestamp < m'.UnixTimestamp
        · rw [if_pos hc] at h
          simp only [Option.some.injEq] at h
          exact h ▸ ih hr x hxr
        · rw [if_neg hc] at h
          simp only [Option.some.injEq] at h
          exact le_trans (ih hr x hxr) (h ▸ not_lt.mp hc)

theorem maxByUnix_of_ne_nil {l : List VerifyRequest} (h : l ≠ []) :
    ∃ m, maxByUnix l = some m := by
  cases l with
  | nil => exact absurd rfl h
  | cons e rest =>
    cases hm : maxByUnix (e :: rest) with
    | none => exact absurd (maxByUnix_eq_none.mp hm) (by simp)
    | some m => exact ⟨m, rfl⟩

theorem minByUnix_eq_none {l : List VerifyRequest} :
    minByUnix l = none ↔ l = [] := by
  cases l with
  | nil => simp [minByUnix]
  | cons e rest =>
    simp only [minByUnix]
    cases h : minByUnix rest with
    | none => simp
    | some m =>
      by_cases hc : m.UnixTimestamp < e.UnixTimestamp <;> simp [hc]

theorem minByUnix_mem : ∀ {l : List VerifyRequest} {m : VerifyRequest},
    minByUnix l = some m → m ∈ l := by
  intro l
  induction l with
  | nil => intro m h; simp [minByUnix] at h
  | cons e rest ih =>
    intro m h
    unfold minByUnix at h
    cases hr : minByUnix rest with
    | none =>
      rw [hr] at h
      simp only [] at h
      simp only [Option.some.injEq] at h
      simp [h]
    | some m' =>
      rw [hr] at h
      simp only [] at h
      by_cases hc : m'.UnixTimestamp < e.UnixTimestamp
      · rw [if_pos hc] at h
        simp only [Option.some.injEq] at h
        exact List.mem_cons_of_mem e (h ▸ ih hr)
      · rw [if_neg hc] at h
        simp only [Option.some.injEq] at h
        simp [h]

theorem minByUnix_ge : ∀ {l : List VerifyRequest} {m : VerifyRequest},
    minByUnix l = some m →
    ∀ e ∈ l, m.UnixTimestamp ≤ e.UnixTimestamp := by
  intro l
  induction l with
  | nil => intro m h; simp [minByUnix] at h
  | cons e rest ih =>
    intro m h x hx
    unfold minByUnix at h
    cases hr : minByUnix rest with
    | none =>
      rw [hr] at h
      simp only [] at h
      simp only [Option.some.injEq] at h
      have : rest = [] := minByUnix_eq_none.mp hr
      subst this
      rcases List.mem_singleton.mp hx with rfl
      exact h ▸ le_refl _
    | some m' =>
      rw [hr] at h
      simp only [] at h
      rcases List.mem_cons.mp hx with rfl | hxr
      · by_cases hc : m'.UnixTimestamp < x.UnixTimestamp
        · rw [if_pos hc] at h
          simp only [Option.some.injEq] at h
          exact h ▸ le_of_lt hc
        · rw [if_neg hc] at h
          simp only [Option.some.injEq] at h
          exact h ▸ le_refl _
      · by_cases hc : m'.UnixTimestamp < e.UnixTimestamp
        · rw [if_pos hc] at h
          simp only [Option.some.injEq] at h
          exact h ▸ ih hr x hxr
        · rw [if_neg hc] at h
          simp only [Option.some.injEq] at h
          exact le_trans (h ▸ not_lt.mp hc) (ih hr x hxr)

theorem minByUnix_of_ne_nil {l : List VerifyRequest} (h : l ≠ []) :
    ∃ m, minByUnix l = some m := by
  cases l with
  | nil => exact absurd rfl h
  | cons e rest =>
    cases hm : minByUnix (e :: rest) with
    | none => exact absurd (minByUnix_eq_none.mp hm) (by simp)
    | some m => exact ⟨m, rfl⟩

/-! ## Characterization of `getPriorNext` -/

theorem priorMatch_iff {username uuid : String} {timestamp : Int}
    {e : VerifyRequest} :
    priorMatch username uuid timestamp e = true ↔
      e.Username = username ∧ e.EventUUID ≠ uuid ∧
        e.UnixTimestamp ≤ timestamp := by
  simp [priorMatch, and_assoc]

theorem nextMatch_iff {username uuid : String} {timestamp : Int}
    {e : VerifyRequest} :
    nextMatch username uuid timestamp e = true ↔
      e.Username = username ∧ e.EventUUID ≠ uuid ∧
        timestamp < e.UnixTimestamp := by
  simp [nextMatch, and_assoc]

/-- The scan-loop classification in `GetPriorNext` reduces to the two
`LIMIT 1` query results: the first query's row always satisfies
`Unix <= timestamp` and the second's `Unix > timestamp`. -/
theorem getPriorNext_eq (s : Store) (username uuid : String)
    (timestamp : Int) :
    getPriorNext s username uuid timestamp =
      (maxByUnix (s.filter (priorMatch username uuid timestamp)),
       minByUnix (s.filter (nextMatch username uuid timestamp))) := by
  unfold getPriorNext
  cases hp : maxByUnix (s.filter (priorMatch username uuid timestamp)) with
  | none =>
    cases hn : minByUnix (s.filter (nextMatch username uuid timestamp)) with
    | none => simp
    | some n =>
      have hmem := minByUnix_mem hn
      have hcond := (List.mem_filter.mp hmem).2
      have hlt : timestamp < n.UnixTimestamp := (nextMatch_iff.mp hcond).2.2
      simp [not_le.mpr hlt]
  | some p =>
    have hmem := maxByUnix_mem hp
    have hcond := (List.mem_filter.mp hmem).2
    have hle : p.UnixTimestamp ≤ timestamp := (priorMatch_iff.mp hcond).2.2
    cases hn : minByUnix (s.filter (nextMatch username uuid timestamp)) with
    | none => simp [hle]
    | some n =>
      have hmemn := minByUnix_mem hn
      have hcondn := (List.mem_filter.mp hmemn).2
      have hlt : timestamp < n.UnixTimestamp := (nextMatch_iff.mp hcondn).2.2
      simp [hle, not_le.mpr hlt]

/-- What a returned predecessor is: a stored row of the user, not the
excluded event, at or before the query timestamp, and with maximal `Unix`
among all such rows. -/
theorem getPriorNext_fst_spec {s : Store} {username uuid : String}
    {timestamp : Int} {p : VerifyRequest}
    (h : (getPriorNext s username uuid timestamp).1 = some p) :
    p ∈ s ∧ p.Username = username ∧ p.EventUUID ≠ uuid ∧
      p.UnixTimestamp ≤ timestamp ∧
      ∀ e ∈ s, e.Username = username → e.EventUUID ≠ uuid →
        e.UnixTimestamp ≤ timestamp → e.UnixTimestamp ≤ p.UnixTimestamp := by
  rw [getPriorNext_eq] at h
  have hmem := maxByUnix_mem h
  rcases List.mem_filter.mp hmem with ⟨hs, hcond⟩
  rcases priorMatch_iff.mp hcond with ⟨h1, h2, h3⟩
  refine ⟨hs, h1, h2, h3, ?_⟩
  intro e he hu hid hle
  exact maxByUnix_le h e
    (List.mem_filter.mpr ⟨he, priorMatch_iff.mpr ⟨hu, hid, hle⟩⟩)

/-- A qualifying row forces a predecessor to be returned. -/
theorem getPriorNext_fst_some {s : Store} {username uuid : String}
    {timestamp : Int} {e : VerifyRequest} (he : e ∈ s)
    (h1 : e.Username = username) (h2 : e.EventUUID ≠ uuid)
    (h3 : e.UnixTimestamp ≤ timestamp) :
    ∃ p, (getPriorNext s username uuid timestamp).1 = some p := by
  rw [getPriorNext_eq]
  have hmem : e ∈ s.filter (priorMatch username uuid timestamp) :=
    List.mem_filter.mpr ⟨he, priorMatch_iff.mpr ⟨h1, h2, h3⟩⟩
  simpa using maxByUnix_of_ne_nil (List.ne_nil_of_mem hmem)

/-- What a returned successor is: a stored row of the user, not the
excluded event, strictly after the query timestamp, and with minimal
`Unix` among all such rows. -/
theorem getPriorNext_snd_spec {s : Store} {username uuid : String}
    {timestamp : Int} {n : VerifyRequest}
    (h : (getPriorNext s username uuid timestamp).2 = some n) :
    n ∈ s ∧ n.Username = username ∧ n.EventUUID ≠ uuid ∧
      timestamp < n.UnixTimestamp ∧
      ∀ e ∈ s, e.Username = username → e.EventUUID ≠ uuid →
        timestamp < e.UnixTimestamp → n.UnixTimestamp ≤ e.UnixTimestamp := by
  rw [getPriorNext_eq] at h
  have hmem := minByUnix_mem h
  rcases List.mem_filter.mp hmem with ⟨hs, hcond⟩
  rcases nextMatch_iff.mp hcond with ⟨h1, h2, h3⟩
  refine ⟨hs, h1, h2, h3, ?_⟩
  intro e he hu hid hlt
  exact minByUnix_ge h e
    (List.mem_filter.mpr ⟨he, nextMatch_iff.mpr ⟨hu, hid, hlt⟩⟩)

/-- A qualifying row forces a successor to be returned. -/
theorem getPriorNext_snd_some {s : Store} {username uuid : String}
    {timestamp : Int} {e : VerifyRequest} (he : e ∈ s)
    (h1 : e.Username = username) (h2 : e.EventUUID ≠ uuid)
    (h3 : timestamp < e.UnixTimestamp) :
    ∃ n, (getPriorNext s username uuid timestamp).2 = some n := by
  rw [getPriorNext_eq]
  have hmem : e ∈ s.filter (nextMatch username uuid timestamp) :=
    List.mem_filter.mpr ⟨he, nextMatch_iff.mpr ⟨h1, h2, h3⟩⟩
  simpa using minByUnix_of_ne_nil (List.ne_nil_of_mem hmem)

/-! ## Claim theorems -/

/-- Claim C1: For every user and every stored event whose `unix_timestamp`
equals the query timestamp (other than the event excluded by `event_id`),
`GetPriorNext` classifies that event's timestamp into the predecessor slot
and never into the successor slot: the successor, when present, is always
strictly later than the query timestamp, and as soon as a non-excluded
equal-timestamp event of the user is stored, the returned predecessor
itself carries exactly that timestamp. -/
theorem c1_tie_is_predecessor_never_successor (s : Store)
    (username uuid : String) (timestamp : Int) :
    (∀ n, (getPriorNext s username uuid timestamp).2 = some n →
      timestamp < n.UnixTimestamp) ∧
    ((∃ e ∈ s, e.Username = username ∧ e.EventUUID ≠ uuid ∧
        e.UnixTimestamp = timestamp) →
      ∃ p, (getPriorNext s username uuid timestamp).1 = some p ∧
        p.UnixTimestamp = timestamp) := by
  constructor
  · intro n hn
    exact (getPriorNext_snd_spec hn).2.2.2.1
  · rintro ⟨e, he, h1, h2, h3⟩
    obtain ⟨p, hp⟩ := getPriorNext_fst_some he h1 h2 (le_of_eq h3)
    rcases getPriorNext_fst_spec hp with ⟨_, _, _, hple, hmax⟩
    refine ⟨p, hp, le_antisymm hple ?_⟩
    calc timestamp = e.UnixTimestamp := h3.symm
    _ ≤ p.UnixTimestamp := hmax e he h1 h2 (le_of_eq h3)

/-- Witness for C1 at a concrete input: a store holding one event of user
`u` at time `10`; querying with a different `event_uuid` at time `10`
returns that event as the predecessor. -/
theorem c1_witness :
    ∃ p, (getPriorNext [⟨"u", 10, "a", "1.2.3.4"⟩] "u" "b" 10).1 = some p ∧
      p.UnixTimestamp = 10 :=
  (c1_tie_is_predecessor_never_successor [⟨"u", 10, "a", "1.2.3.4"⟩]
    "u" "b" 10).2 ⟨⟨"u", 10, "a", "1.2.3.4"⟩, by simp, rfl, by simp, rfl⟩

/-- Claim C2: Neither the predecessor nor the successor returned by
`GetPriorNext` is the event identified by the excluded `event_id`: both
queries carry `Uuid != ?`, so a just-inserted event never appears as its
own neighbor. -/
theorem c2_neighbor_never_self (s : Store) (username uuid : String)
    (timestamp : Int) :
    (∀ p, (getPriorNext s username uuid timestamp).1 = some p →
      p.EventUUID ≠ uuid) ∧
    (∀ n, (getPriorNext s username uuid timestamp).2 = some n →
      n.EventUUID ≠ uuid) := by
  constructor
  · intro p hp
    exact (getPriorNext_fst_spec hp).2.2.1
  · intro n hn
    exact (getPriorNext_snd_spec hn).2.2.1

/-- Witness for C2 at a concrete input: the store holds the queried event
`"a"` and one other event `"b"`; the returned predecessor is not `"a"`. -/
theorem c2_witness :
    (⟨"u", 5, "b", "4.3.2.1"⟩ : VerifyRequest).EventUUID ≠ "a" :=
  (c2_neighbor_never_self
      [⟨"u", 10, "a", "1.2.3.4"⟩, ⟨"u", 5, "b", "4.3.2.1"⟩] "u" "a" 10).1
    ⟨"u", 5, "b", "4.3.2.1"⟩ (by rfl)

/-- Claim C9: After `Clear()` the store is empty, so every subsequent
`GetPriorNext` call — for any user, any excluded `event_id` and any
timestamp — returns `(nil, nil)`, until a new event is inserted. -/
theorem c9_clear_then_no_neighbors (s : Store) (username uuid : String)
    (timestamp : Int) :
    getPriorNext (clear s) username uuid timestamp = (none, none) := rfl

/-! ## Lemmas about the calculator -/

/-- The haversine `a` term as written in `service.go` (the `let a` local,
with the `deltaLat`/`deltaLon` locals substituted). -/
noncomputable def havA (latFrom lonFrom latTo lonTo : ℝ) : ℝ :=
  Real.sin ((latTo - latFrom) * (Real.pi / 180) / 2) *
      Real.sin ((latTo - latFrom) * (Real.pi / 180) / 2) +
    Real.cos (latFrom * (Real.pi / 180)) * Real.cos (latTo * (Real.pi / 180)) *
      Real.sin ((lonTo - lonFrom) * (Real.pi / 180) / 2) *
      Real.sin ((lonTo - lonFrom) * (Real.pi / 180) / 2)

/-- The outer shape of `haversine`: `kmtomiles * (earthRadius * c)`. -/
noncomputable def havShell (a : ℝ) : ℝ :=
  kmtomiles * (earthRadius * (2 * atan2 (Real.sqrt a) (Real.sqrt (1 - a))))

theorem haversine_as_shell (latFrom lonFrom latTo lonTo : ℝ) :
    haversine latFrom lonFrom latTo lonTo =
      havShell (havA latFrom lonFrom latTo lonTo) := rfl

/-- The spec §4.2 `a` term, on coordinates already converted to radians. -/
noncomputable def specA (lat1 lon1 lat2 lon2 : ℝ) : ℝ :=
  Real.sin ((lat2 * (Real.pi / 180) - lat1 * (Real.pi / 180)) / 2) ^ 2 +
    Real.cos (lat1 * (Real.pi / 180)) * Real.cos (lat2 * (Real.pi / 180)) *
      Real.sin ((lon2 * (Real.pi / 180) - lon1 * (Real.pi / 180)) / 2) ^ 2

/-- The outer shape of the spec distance: `R·c` converted to miles. -/
noncomputable def specShell (a : ℝ) : ℝ :=
  6371 * (2 * atan2 (Real.sqrt a) (Real.sqrt (1 - a))) * 0.621371192

theorem specDistance_as_shell (lat1 lon1 lat2 lon2 : ℝ) :
    specDistance lat1 lon1 lat2 lon2 =
      specShell (specA lat1 lon1 lat2 lon2) := rfl

theorem havA_eq_specA (lat1 lon1 lat2 lon2 : ℝ) :
    havA lat1 lon1 lat2 lon2 = specA lat1 lon1 lat2 lon2 := by
  unfold havA specA
  rw [show (lat2 - lat1) * (Real.pi / 180) / 2 =
        (lat2 * (Real.pi / 180) - lat1 * (Real.pi / 180)) / 2 from by ring,
    show (lon2 - lon1) * (Real.pi / 180) / 2 =
        (lon2 * (Real.pi / 180) - lon1 * (Real.pi / 180)) / 2 from by ring]
  ring

theorem havShell_eq_specShell (a : ℝ) : havShell a = specShell a := by
  unfold havShell specShell kmtomiles earthRadius
  ring

theorem havA_symm (lat1 lon1 lat2 lon2 : ℝ) :
    havA lat1 lon1 lat2 lon2 = havA lat2 lon2 lat1 lon1 := by
  unfold havA
  rw [show (lat1 - lat2) * (Real.pi / 180) / 2 =
        -((lat2 - lat1) * (Real.pi / 180) / 2) from by ring,
    show (lon1 - lon2) * (Real.pi / 180) / 2 =
        -((lon2 - lon1) * (Real.pi / 180) / 2) from by ring,
    Real.sin_neg, Real.sin_neg]
  ring

theorem haversine_symm (lat1 lon1 lat2 lon2 : ℝ) :
    haversine lat1 lon1 lat2 lon2 = haversine lat2 lon2 lat1 lon1 := by
  rw [haversine_as_shell, haversine_as_shell, havA_symm]

theorem mathRound_eq_specRound (x : ℝ) : mathRound x = specRound x := by
  unfold mathRound specRound
  by_cases h : x < 0
  · rw [if_pos h, if_pos h, abs_of_neg h]
  · rw [if_neg h, if_neg h, abs_of_nonneg (not_lt.mp h)]

/-- Claim C4: For every pair of points and every time `t`, the speed of two
events at the same timestamp is the sentinel `-1`: `calculateSpeed` tests
`time1 == time2` before ever dividing by the elapsed time. -/
theorem c4_zero_elapsed_time_sentinel (lat1 lon1 lat2 lon2 : ℝ) (t : Int) :
    calculateSpeed lat1 lon1 t lat2 lon2 t = -1 := by
  simp [calculateSpeed]

/-- Claim C8: `calculateSpeed` is symmetric in its two (point, time) pairs:
the haversine distance is symmetric and the elapsed time is taken in
absolute value. -/
theorem c8_speed_symmetric (lat1 lon1 : ℝ) (t1 : Int) (lat2 lon2 : ℝ)
    (t2 : Int) :
    calculateSpeed lat1 lon1 t1 lat2 lon2 t2 =
      calculateSpeed lat2 lon2 t2 lat1 lon1 t1 := by
  simp only [calculateSpeed]
  by_cases h : t1 = t2
  · subst h
    simp
  · rw [if_neg h, if_neg (fun e => h e.symm), haversine_symm,
      show ((t1 - t2 : Int) : ℝ) = -((t2 - t1 : Int) : ℝ) from by push_cast; ring,
      abs_neg]

/-- Claim C7: The implemented calculator matches the spec §4.2 formulas
exactly: `haversine` is the spec's haversine great-circle distance (with
`a = sin²(Δlat/2) + cos(lat1)·cos(lat2)·sin²(Δlon/2)`,
`c = 2·atan2(√a, √(1−a))`, radius 6371 km, miles factor 0.621371192, inputs
in degrees), and `calculateSpeed` is
`round(distance · 3600 / |t2 − t1|)` with round half away from zero, with
sentinel `-1` when the timestamps coincide. -/
theorem c7_calculator_refines_spec :
    (∀ lat1 lon1 lat2 lon2 : ℝ,
      haversine lat1 lon1 lat2 lon2 = specDistance lat1 lon1 lat2 lon2) ∧
    (∀ (lat1 lon1 : ℝ) (t1 : Int) (lat2 lon2 : ℝ) (t2 : Int),
      calculateSpeed lat1 lon1 t1 lat2 lon2 t2 =
        specSpeed lat1 lon1 t1 lat2 lon2 t2) := by
  have hdist : ∀ lat1 lon1 lat2 lon2 : ℝ,
      haversine lat1 lon1 lat2 lon2 = specDistance lat1 lon1 lat2 lon2 := by
    intro lat1 lon1 lat2 lon2
    rw [haversine_as_shell, specDistance_as_shell, havA_eq_specA,
      havShell_eq_specShell]
  refine ⟨hdist, ?_⟩
  intro lat1 lon1 t1 lat2 lon2 t2
  simp only [calculateSpeed, specSpeed]
  by_cases h : t1 = t2
  · rw [if_pos h, if_pos h]
  · rw [if_neg h, if_neg h, mathRound_eq_specRound, hdist,
      show ((t2 - t1 : Int) : ℝ) = (t2 : ℝ) - (t1 : ℝ) from by push_cast; ring]

/-- Claim C3: Inserting an event whose `event_uuid` is already stored fails
with the duplicate-event error whatever its other fields are, leaving the
store unchanged, and `VerifyIP` on such an event returns the error and no
result (and does not grow the store). -/
theorem c3_duplicate_event_rejected (s : Store) (item : VerifyRequest)
    (h : ∃ e ∈ s, e.EventUUID = item.EventUUID) :
    addRecord s item = .error .duplicateEvent ∧
    ∀ geo : GeoLookup, verifyIP geo s item = (s, .error .duplicateEvent) := by
  have hadd : addRecord s item = .error .duplicateEvent := by
    rcases h with ⟨e, he, heq⟩
    unfold addRecord
    rw [if_pos (List.any_eq_true.mpr ⟨e, he, by simp [heq]⟩)]
  refine ⟨hadd, fun geo => ?_⟩
  simp only [verifyIP, hadd]

/-- Witness for C3 at a concrete input: `"a"` is already stored for user
`"u"`; a request reusing `"a"` with every other field different is
rejected and the store keeps its single row. -/
theorem c3_witness :
    addRecord [⟨"u", 10, "a", "1.2.3.4"⟩] ⟨"v", 99, "a", "9.9.9.9"⟩ =
        .error .duplicateEvent ∧
      verifyIP (fun _ => none) [⟨"u", 10, "a", "1.2.3.4"⟩]
          ⟨"v", 99, "a", "9.9.9.9"⟩ =
        ([⟨"u", 10, "a", "1.2.3.4"⟩], .error .duplicateEvent) :=
  ⟨(c3_duplicate_event_rejected [⟨"u", 10, "a", "1.2.3.4"⟩]
      ⟨"v", 99, "a", "9.9.9.9"⟩ ⟨⟨"u", 10, "a", "1.2.3.4"⟩, by simp, rfl⟩).1,
    (c3_duplicate_event_rejected [⟨"u", 10, "a", "1.2.3.4"⟩]
      ⟨"v", 99, "a", "9.9.9.9"⟩ ⟨⟨"u", 10, "a", "1.2.3.4"⟩, by simp, rfl⟩).2
      (fun _ => none)⟩

/-- Claim C10: When the geolocation lookup of the incoming event fails after
the store insert succeeded, `VerifyIP` returns an error and no result, yet
the new row stays in the store: an identical retry fails with the
duplicate-event error, and (when the user had no other events) the event
is returned as the predecessor of later queries for that user. -/
theorem c10_failed_lookup_keeps_insert (geo : GeoLookup) (s : Store)
    (req : VerifyRequest)
    (hnew : ∀ e ∈ s, e.EventUUID ≠ req.EventUUID)
    (hgeo : geo req.IPAddress = none) :
    verifyIP geo s req = (s ++ [req], .error .locationLookup) ∧
    (∀ geo2 : GeoLookup,
      verifyIP geo2 (s ++ [req]) req = (s ++ [req], .error .duplicateEvent)) ∧
    ((∀ e ∈ s, e.Username ≠ req.Username) →
      ∀ (uuid2 : String) (ts2 : Int), uuid2 ≠ req.EventUUID →
        req.UnixTimestamp ≤ ts2 →
        (getPriorNext (s ++ [req]) req.Username uuid2 ts2).1 = some req) := by
  have hadd : addRecord s req = .ok (s ++ [req]) := by
    unfold addRecord
    rw [if_neg]
    intro hc
    rcases List.any_eq_true.mp hc with ⟨e, he, hbeq⟩
    exact hnew e he (by simpa using hbeq)
  refine ⟨?_, ?_, ?_⟩
  · simp only [verifyIP, hadd, hgeo]
  · intro geo2
    have hdup : addRecord (s ++ [req]) req = .error .duplicateEvent := by
      unfold addRecord
      rw [if_pos (List.any_eq_true.mpr ⟨req, by simp, by simp⟩)]
    simp only [verifyIP, hdup]
  · intro huser uuid2 ts2 huuid hts
    have hreqmem : req ∈ s ++ [req] := by simp
    obtain ⟨p, hp⟩ :=
      getPriorNext_fst_some hreqmem rfl (fun e => huuid e.symm) hts
    rcases getPriorNext_fst_spec hp with ⟨hpmem, hpu, _, _, _⟩
    rcases List.mem_append.mp hpmem with hin | hin
    · exact absurd hpu (huser p hin)
    · exact (List.mem_singleton.mp hin) ▸ hp

/-- Witness for C10 at a concrete input: with an empty store and a lookup
that always misses, the request is stored although the call errors; the
retry is a duplicate, and a later query sees the event as predecessor. -/
theorem c10_witness :
    verifyIP (fun _ => none) [] (⟨"u", 10, "a", "1.2.3.4"⟩ : VerifyRequest) =
        ([⟨"u", 10, "a", "1.2.3.4"⟩], .error .locationLookup) ∧
      verifyIP (fun _ => none) [⟨"u", 10, "a", "1.2.3.4"⟩]
          ⟨"u", 10, "a", "1.2.3.4"⟩ =
        ([⟨"u", 10, "a", "1.2.3.4"⟩], .error .duplicateEvent) ∧
      (getPriorNext [⟨"u", 10, "a", "1.2.3.4"⟩] "u" "b" 11).1 =
        some ⟨"u", 10, "a", "1.2.3.4"⟩ := by
  have h := c10_failed_lookup_keeps_insert (fun _ => none) []
    ⟨"u", 10, "a", "1.2.3.4"⟩ (by simp) rfl
  exact ⟨h.1, h.2.1 (fun _ => none),
    h.2.2 (by simp) "b" 11 (by simp) (by decide)⟩

/-! ## Lemmas about the response assembly -/

/-- Every `GeoEvent` produced by `geoEventFromRequest` carries the
suspicion label computed from its own speed field. -/
theorem geoEventFromRequest_suspicious {geo : GeoLookup} {curLoc : Location}
    {curEvent otherEvent : VerifyRequest} {ge : GeoEvent}
    (h : geoEventFromRequest geo curLoc curEvent otherEvent = some ge) :
    ge.SuspiciousTravel = decide (ge.Speed = -1 ∨ ge.Speed > MaxSpeed) := by
  unfold geoEventFromRequest at h
  cases hgeo : geo otherEvent.IPAddress with
  | none => rw [hgeo] at h; exact absurd h (by simp)
  | some otherLoc =>
    rw [hgeo] at h
    simp only [] at h
    obtain rfl := Option.some_inj.mp h
    rfl

/-- A present neighbor in a successful `neighborGeoEvent` step came out of
`geoEventFromRequest`. -/
theorem neighborGeoEvent_ok_some {geo : GeoLookup} {curLoc : Location}
    {curEvent : VerifyRequest} {opt : Option VerifyRequest} {ge : GeoEvent}
    (h : neighborGeoEvent geo curLoc curEvent opt = .ok (some ge)) :
    ∃ other, geoEventFromRequest geo curLoc curEvent other = some ge := by
  cases opt with
  | none => simp [neighborGeoEvent] at h
  | some other =>
    unfold neighborGeoEvent at h
    simp only [] at h
    cases hg : geoEventFromRequest geo curLoc curEvent other with
    | none => rw [hg] at h; exact absurd h (by simp)
    | some ge2 =>
      rw [hg] at h
      simp only [Except.ok.injEq, Option.some.injEq] at h
      exact ⟨other, by rw [hg, h]⟩

/-- Every present neighbor of a successful `VerifyIP` response came out of
`geoEventFromRequest`, for the current location the pipeline resolved. -/
theorem verifyIP_ok_spec {geo : GeoLookup} {s s2 : Store}
    {req : VerifyRequest} {resp : VerifyResponse}
    (h : verifyIP geo s req = (s2, .ok resp)) :
    ∃ curLoc : Location,
      (∀ ge, resp.PrecedingIPAccess = some ge →
        ∃ other, geoEventFromRequest geo curLoc req other = some ge) ∧
      (∀ ge, resp.SubsequentIPAccess = some ge →
        ∃ other, geoEventFromRequest geo curLoc req other = some ge) := by
  unfold verifyIP at h
  cases ha : addRecord s req with
  | error e => rw [ha] at h; simp at h
  | ok s3 =>
    rw [ha] at h
    simp only [] at h
    cases hg : geo req.IPAddress with
    | none => rw [hg] at h; simp at h
    | some curLoc =>
      rw [hg] at h
      simp only [] at h
      cases hn1 : neighborGeoEvent geo curLoc req
          (getPriorNext s3 req.Username req.EventUUID req.UnixTimestamp).1 with
      | error e => rw [hn1] at h; simp at h
      | ok pge =>
        rw [hn1] at h
        simp only [] at h
        cases hn2 : neighborGeoEvent geo curLoc req
            (getPriorNext s3 req.Username req.EventUUID req.UnixTimestamp).2 with
        | error e => rw [hn2] at h; simp at h
        | ok nge =>
          rw [hn2] at h
          simp only [Prod.mk.injEq, Except.ok.injEq] at h
          obtain ⟨rfl, rfl⟩ := h
          refine ⟨curLoc, ?_, ?_⟩
          · intro ge hge
            simp only [] at hge
            exact neighborGeoEvent_ok_some (hge ▸ hn1)
          · intro ge hge
            simp only [] at hge
            exact neighborGeoEvent_ok_some (hge ▸ hn2)

/-- Claim C5: Every neighbor in a successful `VerifyIP` response is labelled
suspicious exactly when its computed speed is the sentinel `-1` or is
strictly greater than `types.MaxSpeed = 500`; a speed of exactly `500` is
not suspicious. -/
theorem c5_suspicious_iff_threshold (geo : GeoLookup) (s s2 : Store)
    (req : VerifyRequest) (resp : VerifyResponse) (ge : GeoEvent)
    (h : verifyIP geo s req = (s2, .ok resp))
    (hge : resp.PrecedingIPAccess = some ge ∨
      resp.SubsequentIPAccess = some ge) :
    (ge.SuspiciousTravel = true ↔ (ge.Speed = -1 ∨ ge.Speed > MaxSpeed)) ∧
    (ge.Speed = 500 → ge.SuspiciousTravel = false) := by
  obtain ⟨curLoc, hprev, hnext⟩ := verifyIP_ok_spec h
  have hsome : ∃ other, geoEventFromRequest geo curLoc req other = some ge := by
    rcases hge with hg | hg
    · exact hprev ge hg
    · exact hnext ge hg
  obtain ⟨other, hother⟩ := hsome
  have hs := geoEventFromRequest_suspicious hother
  constructor
  · rw [hs]
    exact decide_eq_true_iff
  · intro h500
    rw [hs, h500]
    decide

/-- Witness for C5 at a concrete input: user `"u"` has a stored event at
time 10 and verifies a new event at the same time 10 from the same IP; the
predecessor neighbor gets speed `-1` and is flagged suspicious. -/
theorem c5_witness :
    ((⟨"1.2.3.4", -1, true, 0, 0, 0, 10⟩ : GeoEvent).SuspiciousTravel = true ↔
      ((⟨"1.2.3.4", -1, true, 0, 0, 0, 10⟩ : GeoEvent).Speed = -1 ∨
        (⟨"1.2.3.4", -1, true, 0, 0, 0, 10⟩ : GeoEvent).Speed > MaxSpeed)) ∧
    ((⟨"1.2.3.4", -1, true, 0, 0, 0, 10⟩ : GeoEvent).Speed = 500 →
      (⟨"1.2.3.4", -1, true, 0, 0, 0, 10⟩ : GeoEvent).SuspiciousTravel = false) :=
  c5_suspicious_iff_threshold (fun _ => some ⟨0, 0, 0⟩)
    [⟨"u", 10, "a", "1.2.3.4"⟩]
    [⟨"u", 10, "a", "1.2.3.4"⟩, ⟨"u", 10, "b", "1.2.3.4"⟩]
    ⟨"u", 10, "b", "1.2.3.4"⟩
    ⟨⟨0, 0, 0⟩, some ⟨"1.2.3.4", -1, true, 0, 0, 0, 10⟩, none⟩
    ⟨"1.2.3.4", -1, true, 0, 0, 0, 10⟩
    rfl (Or.inl rfl)

/-- Claim C6 counterexample: Two stores holding the same set of events for
user `"u"` (two events at the identical timestamp 10), in the two possible
insertion orders, give different `GetPriorNext` results: the tied
predecessor is chosen by row order, not by the `(unix_timestamp, event_id)`
order the claim names. -/
theorem c6_counterexample :
    List.Perm
        [(⟨"u", 10, "a", "1.1.1.1"⟩ : VerifyRequest), ⟨"u", 10, "b", "2.2.2.2"⟩]
        [⟨"u", 10, "b", "2.2.2.2"⟩, ⟨"u", 10, "a", "1.1.1.1"⟩] ∧
    getPriorNext [⟨"u", 10, "a", "1.1.1.1"⟩, ⟨"u", 10, "b", "2.2.2.2"⟩]
        "u" "q" 10 ≠
      getPriorNext [⟨"u", 10, "b", "2.2.2.2"⟩, ⟨"u", 10, "a", "1.1.1.1"⟩]
        "u" "q" 10 :=
  ⟨List.Perm.swap _ _ _, by decide⟩

/-- Claim C6 amended: For a fixed user and query, whether a predecessor and
a successor exist and their timestamps are uniquely determined by the
multiset of stored events (invariant under permuting the store); only the
choice of representative among events tied at that timestamp depends on
insertion order. -/
theorem c6_amended_neighbors_determined_up_to_timestamp (s1 s2 : Store)
    (username uuid : String) (timestamp : Int) (hperm : s1.Perm s2) :
    Option.map VerifyRequest.UnixTimestamp
        (getPriorNext s1 username uuid timestamp).1 =
      Option.map VerifyRequest.UnixTimestamp
        (getPriorNext s2 username uuid timestamp).1 ∧
    Option.map VerifyRequest.UnixTimestamp
        (getPriorNext s1 username uuid timestamp).2 =
      Option.map VerifyRequest.UnixTimestamp
        (getPriorNext s2 username uuid timestamp).2 := by
  have hmem : ∀ e : VerifyRequest, e ∈ s1 ↔ e ∈ s2 := fun e => hperm.mem_iff
  constructor
  · cases h1 : (getPriorNext s1 username uuid timestamp).1 with
    | none =>
      cases h2 : (getPriorNext s2 username uuid timestamp).1 with
      | none => rfl
      | some p =>
        rcases getPriorNext_fst_spec h2 with ⟨hm, hu, hid, hle, _⟩
        obtain ⟨q, hq⟩ := getPriorNext_fst_some ((hmem p).mpr hm) hu hid hle
        rw [h1] at hq
        cases hq
    | some p =>
      rcases getPriorNext_fst_spec h1 with ⟨hm1, hu1, hid1, hle1, hmax1⟩
      cases h2 : (getPriorNext s2 username uuid timestamp).1 with
      | none =>
        obtain ⟨q, hq⟩ := getPriorNext_fst_some ((hmem p).mp hm1) hu1 hid1 hle1
        rw [h2] at hq
        cases hq
      | some q =>
        rcases getPriorNext_fst_spec h2 with ⟨hm2, hu2, hid2, hle2, hmax2⟩
        have hpq : p.UnixTimestamp ≤ q.UnixTimestamp :=
          hmax2 p ((hmem p).mp hm1) hu1 hid1 hle1
        have hqp : q.UnixTimestamp ≤ p.UnixTimestamp :=
          hmax1 q ((hmem q).mpr hm2) hu2 hid2 hle2
        simp [le_antisymm hpq hqp]
  · cases h1 : (getPriorNext s1 username uuid timestamp).2 with
    | none =>
      cases h2 : (getPriorNext s2 username uuid timestamp).2 with
      | none => rfl
      | some p =>
        rcases getPriorNext_snd_spec h2 with ⟨hm, hu, hid, hlt, _⟩
        obtain ⟨q, hq⟩ := getPriorNext_snd_some ((hmem p).mpr hm) hu hid hlt
        rw [h1] at hq
        cases hq
    | some p =>
      rcases getPriorNext_snd_spec h1 with ⟨hm1, hu1, hid1, hlt1, hmin1⟩
      cases h2 : (getPriorNext s2 username uuid timestamp).2 with
      | none =>
        obtain ⟨q, hq⟩ := getPriorNext_snd_some ((hmem p).mp hm1) hu1 hid1 hlt1
        rw [h2] at hq
        cases hq
      | some q =>
        rcases getPriorNext_snd_spec h2 with ⟨hm2, hu2, hid2, hlt2, hmin2⟩
        have hpq : p.UnixTimestamp ≤ q.UnixTimestamp :=
          hmin1 q ((hmem q).mpr hm2) hu2 hid2 hlt2
        have hqp : q.UnixTimestamp ≤ p.UnixTimestamp :=
          hmin2 p ((hmem p).mp hm1) hu1 hid1 hlt1
        simp [le_antisymm hpq hqp]

/-- Witness for the amended C6 at a concrete input: the two insertion
orders of the counterexample stores agree on the neighbor timestamps. -/
theorem c6_amended_witness :
    Option.map VerifyRequest.UnixTimestamp
        (getPriorNext [(⟨"u", 10, "a", "1.1.1.1"⟩ : VerifyRequest),
          ⟨"u", 10, "b", "2.2.2.2"⟩] "u" "q" 10).1 =
      Option.map VerifyRequest.UnixTimestamp
        (getPriorNext [⟨"u", 10, "b", "2.2.2.2"⟩,
          ⟨"u", 10, "a", "1.1.1.1"⟩] "u" "q" 10).1 ∧
    Option.map VerifyRequest.UnixTimestamp
        (getPriorNext [(⟨"u", 10, "a", "1.1.1.1"⟩ : VerifyRequest),
          ⟨"u", 10, "b", "2.2.2.2"⟩] "u" "q" 10).2 =
      Option.map VerifyRequest.UnixTimestamp
        (getPriorNext [⟨"u", 10, "b", "2.2.2.2"⟩,
          ⟨"u", 10, "a", "1.1.1.1"⟩] "u" "q" 10).2 :=
  c6_amended_neighbors_determined_up_to_timestamp _ _ "u" "q" 10
    (List.Perm.swap _ _ _)

end IPVerify
